import Mathlib

/-!
Shallow embedding of the `go-http-client` repository's core subsystems
(rate limiter, authenticator family, OAuth2 client-credentials token cache)
and proofs of the specification claims about them.

Conventions of the embedding:
* Go strings are represented as `List Char` in the parsing layer and as
  Lean `String` at API boundaries.
* Go `time.Duration` (int64 nanoseconds) is represented as `Int` nanoseconds.
* Go `float64` quantities (token counts, limits, `Seconds()`) are represented
  exactly as `ℚ`; the claims exercised here only involve values that are
  exact in both representations.
* Timestamps are `ℚ` seconds for the limiter and `Int` seconds for the
  OAuth2 cache.
* Fallible Go functions returning `(T, error)` become `Except String T`
  or `Option T`.
-/

namespace GoStrconv

/-- A decimal digit character check, as in Go's parsers (`'0' <= c && c <= '9'`). -/
def isDigitChar (c : Char) : Bool :=
  '0' ≤ c && c ≤ '9'

/-- The numeric value of a decimal digit character (`c - '0'`). -/
def digitVal (c : Char) : Nat :=
  c.toNat - 48

/-- The decimal digit character for `d < 10` (`'0' + d`). -/
def digitChar (d : Nat) : Char :=
  Char.ofNat (48 + d)

/-- Decimal rendering of a natural number, most significant digit first;
    the digit-char production used by Go's `strconv.Itoa`/`FormatInt`. -/
def natToChars (n : Nat) : List Char :=
  if h : n < 10 then [digitChar n]
  else
    have : n / 10 < n := Nat.div_lt_self (by omega) (by omega)
    natToChars (n / 10) ++ [digitChar (n % 10)]

/-- Accumulating decimal parse: consumes the whole list, failing on any
    non-digit character.  This is the digit-consumption loop shared by
    Go's `strconv.ParseUint` (base 10, full string). -/
def parseNatFrom (acc : Nat) : List Char → Option Nat
  | [] => some acc
  | c :: cs =>
      if isDigitChar c then parseNatFrom (acc * 10 + digitVal c) cs
      else none

/-- Digit-and-range phase of Go's `strconv.Atoi` after the sign has been
    consumed: a non-empty run of decimal digits spanning the rest of the
    string, whose signed value must fit in a 64-bit `int`, otherwise an
    error (`ErrRange`) is returned. -/
def atoiDigits (neg : Bool) (digits : List Char) : Option Int :=
  match digits with
  | [] => none
  | _ =>
    match parseNatFrom 0 digits with
    | none => none
    | some v =>
        let x : Int := if neg then -(v : Int) else (v : Int)
        if -(2 ^ 63) ≤ x ∧ x ≤ 2 ^ 63 - 1 then some x else none

/-- Embedding of Go's `strconv.Atoi`: optional single sign, then a non-empty
    run of decimal digits spanning the whole string; the value must fit in a
    64-bit `int`. -/
def Atoi (s : List Char) : Option Int :=
  match s with
  | [] => none
  | c :: rest =>
      if c = '-' then atoiDigits true rest
      else if c = '+' then atoiDigits false rest
      else atoiDigits false (c :: rest)

/-- Embedding of `strings.Split(s, sep)` for a single-character separator:
    the list of maximal runs between occurrences of `sep`. -/
def splitChar (sep : Char) : List Char → List (List Char)
  | [] => [[]]
  | x :: xs =>
      match splitChar sep xs with
      | [] => [[]]
      | r :: rs => if x = sep then [] :: r :: rs else (x :: r) :: rs

end GoStrconv

namespace GoTime

open GoStrconv

/-- Embedding of Go `time`'s `leadingInt`: consume leading decimal digits
    into `x`, with the overflow guards of the original (`x > 1<<63/10`
    before the multiply, `x > 1<<63` after). -/
def leadingInt (x : Nat) : List Char → Option (Nat × List Char)
  | [] => some (x, [])
  | c :: cs =>
      if isDigitChar c then
        if x > 2 ^ 63 / 10 then none
        else
          let x' := x * 10 + digitVal c
          if x' > 2 ^ 63 then none
          else leadingInt x' cs
      else some (x, c :: cs)

/-- Embedding of Go `time`'s `leadingFraction`: consume leading decimal
    digits after a period into `x`, tracking `scale`; once the value would
    overflow, further digits are consumed but ignored.  Go tracks `scale`
    as a `float64`; it is represented exactly as `ℚ` here (the values that
    arise are powers of ten well within `float64` exactness). -/
def leadingFraction (x : Nat) (scale : ℚ) (overflow : Bool) :
    List Char → (Nat × ℚ × List Char)
  | [] => (x, scale, [])
  | c :: cs =>
      if isDigitChar c then
        if overflow then leadingFraction x scale overflow cs
        else if x > (2 ^ 63 - 1) / 10 then leadingFraction x scale true cs
        else
          let y := x * 10 + digitVal c
          if y > 2 ^ 63 then leadingFraction x scale true cs
          else leadingFraction y (scale * 10) overflow cs
      else (x, scale, c :: cs)

/-- The unit-consuming scan of `ParseDuration`: take characters up to the
    next digit or period. -/
def takeUnit : List Char → (List Char × List Char)
  | [] => ([], [])
  | c :: cs =>
      if c = '.' ∨ isDigitChar c then ([], c :: cs)
      else
        let (u, r) := takeUnit cs
        (c :: u, r)

/-- Go `time`'s `unitMap`: nanoseconds per unit. -/
def unitMap (u : List Char) : Option Nat :=
  if u = ['n', 's'] then some 1
  else if u = ['u', 's'] then some 1000
  else if u = ['µ', 's'] then some 1000
  else if u = ['μ', 's'] then some 1000
  else if u = ['m', 's'] then some 1000000
  else if u = ['s'] then some 1000000000
  else if u = ['m'] then some 60000000000
  else if u = ['h'] then some 3600000000000
  else none

/-- One-or-more iterations of `ParseDuration`'s main loop, accumulating the
    total `d` in nanoseconds.  `fuel` only bounds the recursion; it is
    initialised to more than the length of the string, and every iteration
    consumes at least one character (the unit), so it never runs out on the
    paths the claims exercise.  Go computes the fractional contribution as
    `uint64(float64(f) * (float64(unit) / scale))`; it is modelled by the
    exact rational computation followed by truncation, which agrees with it
    on every integral-fraction path (the claims use none). -/
def durLoop (fuel : Nat) (d : Nat) (s : List Char) : Option Nat :=
  match fuel with
  | 0 => none
  | fuel + 1 =>
    match s with
    | [] => some d
    | c :: _ =>
      if ¬(c = '.' ∨ isDigitChar c) then none
      else
        match leadingInt 0 s with
        | none => none
        | some (v, s1) =>
          let pre : Bool := s1.length ≠ s.length
          let (f, scale, s2, post) :=
            match s1 with
            | '.' :: rest =>
                let (f, scale, r) := leadingFraction 0 1 false rest
                (f, scale, r, (r.length ≠ rest.length : Bool))
            | _ => (0, (1 : ℚ), s1, false)
          if ¬pre ∧ ¬post then none
          else
            let (u, s3) := takeUnit s2
            if u = [] then none
            else
              match unitMap u with
              | none => none
              | some unit =>
                if v > 2 ^ 63 / unit then none
                else
                  let v1 := v * unit
                  let v2 :=
                    if f > 0 then v1 + (⌊(f : ℚ) * ((unit : ℚ) / scale)⌋).toNat
                    else v1
                  if v2 > 2 ^ 63 then none
                  else
                    let d' := d + v2
                    if d' > 2 ^ 63 then none
                    else
                      match s3 with
                      | [] => some d'
                      | _ => durLoop fuel d' s3

/-- Embedding of Go's `time.ParseDuration`: optional sign, the special case
    `"0"`, then one or more `<number><unit>` groups; the result is signed
    nanoseconds and must fit in a 64-bit `int`. -/
def ParseDuration (s : List Char) : Option Int :=
  let (neg, s1) :=
    match s with
    | '-' :: rest => (true, rest)
    | '+' :: rest => (false, rest)
    | _ => (false, s)
  if s1 = ['0'] then some 0
  else if s1 = [] then none
  else
    match durLoop (s1.length + 1) 0 s1 with
    | none => none
    | some d =>
        if neg then some (-(d : Int))
        else if d > 2 ^ 63 - 1 then none
        else some (d : Int)

end GoTime

namespace HttpClient

open GoStrconv GoTime

/-- Embedding of `ratelimit.parseDuration` (`src/auth/basic.go`): the bare
    units `"s"`, `"m"`, `"h"` map to one second/minute/hour; anything else
    goes through `time.ParseDuration` and must be strictly positive.
    Durations are `Int` nanoseconds. -/
def parseDuration (durStr : List Char) : Except String Int :=
  if durStr = ['s'] then .ok 1000000000
  else if durStr = ['m'] then .ok 60000000000
  else if durStr = ['h'] then .ok 3600000000000
  else
    match ParseDuration durStr with
    | none =>
        .error "duration must be a valid time duration (e.g., 's', '30s', 'm', 'h') or a number followed by a unit"
    | some duration =>
        if duration ≤ 0 then .error "duration must be positive"
        else .ok duration

/-- Embedding of `ratelimit.parseRate` (`src/auth/basic.go`): split on `/`,
    parse a positive integer request count and a duration, and derive
    `limit = requests / duration.Seconds()` (a `float64`, represented
    exactly as `ℚ`) and `burst = requests`. -/
def parseRate (rateStr : List Char) : Except String (ℚ × Int) :=
  match splitChar '/' rateStr with
  | [p0, p1] =>
    match Atoi p0 with
    | none => .error "requests must be a positive integer"
    | some requests =>
      if requests ≤ 0 then .error "requests must be a positive integer"
      else
        match parseDuration p1 with
        | .error e => .error ("invalid duration: " ++ e)
        | .ok duration =>
            let limit : ℚ := (requests : ℚ) / ((duration : ℚ) / 1000000000)
            .ok (limit, requests)
  | _ => .error "rate must be in format 'requests/duration' (e.g., '10/s', '100/30s')"

/-- Modelled from the spec: the token bucket of `golang.org/x/time/rate`
    (an external dependency of the repository, not part of its sources).
    `limit` is the sustained admission rate in permits/second, `burst` the
    bucket capacity, `tokens` the real-valued available-permit count
    (`float64` in Go, exact `ℚ` here), `last` the timestamp (seconds) of
    the last state update. -/
structure Limiter where
  limit : ℚ
  burst : Int
  tokens : ℚ
  last : ℚ
deriving DecidableEq

/-- Modelled from the spec: lazy replenishment — tokens grow at `limit`
    permits/second since the last check, capped at `burst`. -/
def Limiter.advance (l : Limiter) (t : ℚ) : ℚ :=
  min (l.tokens + max (t - l.last) 0 * l.limit) (l.burst : ℚ)

/-- Modelled from the spec: non-blocking admission — replenish, then
    succeed and decrement by one if at least one token is available, else
    fail with no effect beyond the replenishment bookkeeping. -/
def Limiter.allowAt (l : Limiter) (t : ℚ) : Bool × Limiter :=
  let toks := l.advance t
  if 1 ≤ toks then (true, { l with tokens := toks - 1, last := t })
  else (false, { l with tokens := toks, last := t })

/-- Modelled from the spec: a freshly constructed limiter starts with a
    full bucket (`burst` tokens) at its creation time. -/
def rateNewLimiter (limit : ℚ) (burst : Int) (t : ℚ) : Limiter :=
  { limit := limit, burst := burst, tokens := (burst : ℚ), last := t }

/-- Modelled from the spec: replace the sustained rate, keeping the token
    state (replenished up to the reconfiguration time). -/
def Limiter.setLimitAt (l : Limiter) (t : ℚ) (newLimit : ℚ) : Limiter :=
  { l with tokens := l.advance t, last := t, limit := newLimit }

/-- Modelled from the spec: replace the burst capacity, keeping the token
    state (replenished up to the reconfiguration time). -/
def Limiter.setBurstAt (l : Limiter) (t : ℚ) (newBurst : Int) : Limiter :=
  { l with tokens := l.advance t, last := t, burst := newBurst }

/-- Modelled from the spec: read the currently available token count. -/
def Limiter.tokensAt (l : Limiter) (t : ℚ) : ℚ :=
  l.advance t

/-- Embedding of `ratelimit.RateLimiter` (`src/auth/basic.go`): a wrapped
    `rate.Limiter` (possibly `nil`, hence `Option`) and an `enabled` flag. -/
structure RateLimiter where
  limiter : Option Limiter
  enabled : Bool
deriving DecidableEq

/-- Embedding of `ratelimit.New`: empty string yields a disabled limiter;
    otherwise the rate string is parsed and a fresh enabled limiter built.
    `t` is the construction time. -/
def RateLimiter.New (rateStr : List Char) (t : ℚ) : Except String RateLimiter :=
  if rateStr = [] then .ok { limiter := none, enabled := false }
  else
    match parseRate rateStr with
    | .error e => .error ("invalid rate format: " ++ e)
    | .ok (limit, burst) =>
        .ok { limiter := some (rateNewLimiter limit burst t), enabled := true }

/-- Embedding of `RateLimiter.Allow`: when disabled, succeed without
    consulting the bucket; otherwise attempt a non-blocking withdrawal,
    failing with `rate limit exceeded`.  (The `none` branch models the nil
    dereference Go would take with an enabled limiter and no bucket; it is
    unreachable through the constructors.) -/
def RateLimiter.Allow (rl : RateLimiter) (t : ℚ) :
    Except String Unit × RateLimiter :=
  if rl.enabled = false then (.ok (), rl)
  else
    match rl.limiter with
    | none => (.error "nil limiter dereference", rl)
    | some l =>
        let (ok, l') := l.allowAt t
        if ok then (.ok (), { rl with limiter := some l' })
        else (.error "rate limit exceeded", { rl with limiter := some l' })

/-- Embedding of `RateLimiter.SetRate`: empty string disables (token state
    retained); otherwise re-parse, then either create the bucket (if `nil`)
    or replace its limit and burst, and enable. -/
def RateLimiter.SetRate (rl : RateLimiter) (rateStr : List Char) (t : ℚ) :
    Except String Unit × RateLimiter :=
  if rateStr = [] then (.ok (), { rl with enabled := false })
  else
    match parseRate rateStr with
    | .error e => (.error ("invalid rate format: " ++ e), rl)
    | .ok (limit, burst) =>
        match rl.limiter with
        | none =>
            (.ok (), { limiter := some (rateNewLimiter limit burst t),
                       enabled := true })
        | some l =>
            (.ok (), { limiter := some ((l.setLimitAt t limit).setBurstAt t burst),
                       enabled := true })

/-- Embedding of `RateLimiter.IsEnabled`. -/
def RateLimiter.IsEnabled (rl : RateLimiter) : Bool :=
  rl.enabled

/-- The value type of the `map[string]any` returned by `Stats`. -/
inductive StatValue where
  | b (x : Bool)
  | f (x : ℚ)
  | i (x : Int)
deriving DecidableEq

/-- Embedding of `RateLimiter.Stats`: always reports `enabled`; when
    enabled and the bucket exists, also `limit`, `burst` and `tokens`.
    The Go `map[string]any` is modelled as an association list. -/
def RateLimiter.Stats (rl : RateLimiter) (t : ℚ) : List (String × StatValue) :=
  let base := [("enabled", StatValue.b rl.enabled)]
  match rl.enabled, rl.limiter with
  | true, some l =>
      base ++ [("limit", .f l.limit), ("burst", .i l.burst),
               ("tokens", .f (l.tokensAt t))]
  | _, _ => base

/-- `n` consecutive `Allow` calls at a fixed time `t`, returning the list
    of results and the final limiter state. -/
def RateLimiter.allowTimes (rl : RateLimiter) (t : ℚ) :
    Nat → List (Except String Unit) × RateLimiter
  | 0 => ([], rl)
  | n + 1 =>
      let (r, rl') := rl.Allow t
      let (rs, rl'') := rl'.allowTimes t n
      (r :: rs, rl'')

/-- The header set of an outbound request: a finite map from header names
    to values, modelled as a function (`net/http`'s `Header.Set` replaces
    any previous value of the key). -/
def Header : Type := String → Option String

/-- `Header.Set`: set the key to the single given value. -/
def headerSet (h : Header) (k v : String) : Header :=
  fun k' => if k' = k then some v else h k'

/-- The outbound request, reduced to the part authenticators touch: its
    header set. -/
structure Request where
  header : Header

/-- The standard base64 alphabet of `encoding/base64.StdEncoding`. -/
def base64Alphabet : List Char :=
  "ABCDEFGHIJKLMNOPQRSTUVWXYZabcdefghijklmnopqrstuvwxyz0123456789+/".toList

/-- The base64 digit for a 6-bit value. -/
def b64Char (i : Nat) : Char :=
  base64Alphabet.getD i 'A'

/-- `encoding/base64.StdEncoding` over a byte list (bytes as `Nat < 256`),
    with `=` padding. -/
def base64EncodeChars : List Nat → List Char
  | [] => []
  | [a] => [b64Char (a / 4), b64Char (a % 4 * 16), '=', '=']
  | [a, b] => [b64Char (a / 4), b64Char (a % 4 * 16 + b / 16),
               b64Char (b % 16 * 4), '=']
  | a :: b :: c :: rest =>
      [b64Char (a / 4), b64Char (a % 4 * 16 + b / 16),
       b64Char (b % 16 * 4 + c / 64), b64Char (c % 64)]
        ++ base64EncodeChars rest

/-- The UTF-8 bytes of a string (Go's `[]byte(s)` conversion). -/
def strBytes (s : String) : List Nat :=
  s.toUTF8.toList.map (fun b => b.toNat)

/-- `base64.StdEncoding.EncodeToString([]byte(s))`. -/
def base64String (s : String) : String :=
  ⟨base64EncodeChars (strBytes s)⟩

/-- Embedding of `auth.BasicAuth` (`src/auth/basic.go`). -/
structure BasicAuth where
  username : String
  password : String
deriving DecidableEq

/-- Embedding of `auth.NewBasicAuth`. -/
def NewBasicAuth (username password : String) : BasicAuth :=
  { username := username, password := password }

/-- Embedding of `BasicAuth.Apply`: if either credential is non-empty, set
    the basic-auth header (`req.SetBasicAuth` sets `Authorization` to
    `Basic <base64(username:password)>`); always return `nil`. -/
def BasicAuth.Apply (b : BasicAuth) (req : Request) :
    Except String Unit × Request :=
  if b.username ≠ "" ∨ b.password ≠ "" then
    (.ok (), ⟨headerSet req.header "Authorization"
      ("Basic " ++ base64String (b.username ++ ":" ++ b.password))⟩)
  else (.ok (), req)

/-- Embedding of `BasicAuth.EncodeCredentials`. -/
def BasicAuth.EncodeCredentials (b : BasicAuth) : String :=
  base64String (b.username ++ ":" ++ b.password)

/-- Embedding of `auth.BearerAuth` (`src/unnamed/part_002`). -/
structure BearerAuth where
  token : String
deriving DecidableEq

/-- Embedding of `auth.NewBearerAuth`. -/
def NewBearerAuth (token : String) : BearerAuth :=
  { token := token }

/-- Embedding of `BearerAuth.Apply`: set `Authorization: Bearer <token>`
    only if the token is non-empty; always return `nil`. -/
def BearerAuth.Apply (b : BearerAuth) (req : Request) :
    Except String Unit × Request :=
  if b.token ≠ "" then
    (.ok (), ⟨headerSet req.header "Authorization" ("Bearer " ++ b.token)⟩)
  else (.ok (), req)

/-- Embedding of `auth.CustomAuth` (`src/unnamed/part_002`). -/
structure CustomAuth where
  header : String
  value : String
deriving DecidableEq

/-- Embedding of `auth.NewCustomAuth`. -/
def NewCustomAuth (header value : String) : CustomAuth :=
  { header := header, value := value }

/-- Embedding of `CustomAuth.Apply`: set the custom header only if both
    name and value are non-empty; always return `nil`. -/
def CustomAuth.Apply (c : CustomAuth) (req : Request) :
    Except String Unit × Request :=
  if c.header ≠ "" ∧ c.value ≠ "" then
    (.ok (), ⟨headerSet req.header c.header c.value⟩)
  else (.ok (), req)

/-- Embedding of the immutable part of `auth.OAuth2ClientCredentials`
    (`src/unnamed/part_002`); the mutable token cache is `OAuthState`. -/
structure OAuth2ClientCredentials where
  clientID : String
  clientSecret : String
  tokenURL : String
  scopes : List String
deriving DecidableEq

/-- The mutable token cache of an `OAuth2ClientCredentials`: the cached
    access token (empty until the first fetch) and its expiry time
    (`Int` seconds; the Go zero `time.Time` is modelled as `0`). -/
structure OAuthState where
  token : String
  expiry : Int
deriving DecidableEq

/-- Embedding of `auth.NewOAuth2ClientCredentials`: all three of clientID,
    clientSecret and tokenURL are required non-empty. -/
def NewOAuth2ClientCredentials (clientID clientSecret tokenURL : String)
    (scopes : List String) : Except String OAuth2ClientCredentials :=
  if clientID = "" ∨ clientSecret = "" ∨ tokenURL = "" then
    .error "clientID, clientSecret, and tokenURL are required"
  else .ok { clientID := clientID, clientSecret := clientSecret,
             tokenURL := tokenURL, scopes := scopes }

/-- The decoded JSON shape of the token endpoint's response
    (`tokenResponse` in the source). -/
structure TokenResponseJSON where
  accessToken : String
  tokenType : String
  expiresIn : Int
deriving DecidableEq

/-- The token endpoint's HTTP answer as the code observes it: a status
    code and line, and the JSON-decoding outcome of the body.  The network
    transport itself is an external collaborator; a failed `client.Do` is
    the `Except.error` case of the `Except String TokenHTTPResponse`
    passed to `fetchToken`. -/
structure TokenHTTPResponse where
  statusCode : Nat
  status : String
  body : Except String TokenResponseJSON

/-- Embedding of `OAuth2ClientCredentials.fetchToken`
    (`src/unnamed/part_002`), with the network call abstracted into the
    `resp` argument: a non-200 status, an undecodable body, or an empty
    access token fail and leave the cache untouched; on success the token
    is cached with expiry `now + (expiresIn - 60)` seconds when
    `expiresIn > 0`, else `now + 55` minutes. -/
def fetchToken (s : OAuthState) (resp : Except String TokenHTTPResponse)
    (now : Int) : OAuthState × Except String String :=
  match resp with
  | .error e => (s, .error ("token request failed: " ++ e))
  | .ok r =>
      if r.statusCode ≠ 200 then
        (s, .error ("token request failed with status: " ++ r.status))
      else
        match r.body with
        | .error e => (s, .error ("failed to decode token response: " ++ e))
        | .ok j =>
            if j.accessToken = "" then (s, .error "no access token in response")
            else
              let expiry :=
                if j.expiresIn > 0 then now + (j.expiresIn - 60)
                else now + 55 * 60
              ({ token := j.accessToken, expiry := expiry }, .ok j.accessToken)

/-- The cache-validity check of `getValidToken`: a non-empty cached token
    whose expiry is strictly in the future. -/
def tokenValid (s : OAuthState) (now : Int) : Bool :=
  decide (s.token ≠ "" ∧ now < s.expiry)

/-- The outcome of `getValidToken`: the cache afterwards, the token or
    error, and whether a network fetch was performed. -/
structure GetTokenResult where
  state : OAuthState
  result : Except String String
  fetched : Bool

/-- Embedding of `OAuth2ClientCredentials.getValidToken`: the fast-path
    check under the shared lock, the re-check under the exclusive lock
    (identical in this sequential embedding), then the fetch. -/
def getValidToken (s : OAuthState) (now : Int)
    (resp : Except String TokenHTTPResponse) : GetTokenResult :=
  if tokenValid s now then ⟨s, .ok s.token, false⟩
  else if tokenValid s now then ⟨s, .ok s.token, false⟩
  else
    let (s', r) := fetchToken s resp now
    ⟨s', r, true⟩

/-- The outcome of `OAuth2ClientCredentials.Apply`: the cache afterwards,
    the (possibly modified) request, the returned error value, and whether
    a network fetch was performed. -/
structure ApplyResult where
  state : OAuthState
  req : Request
  result : Except String Unit
  fetched : Bool

/-- Embedding of `OAuth2ClientCredentials.Apply`: obtain a valid token,
    then set `Authorization: Bearer <token>`; on failure wrap the error
    and leave the request untouched. -/
def OAuth2Apply (s : OAuthState) (now : Int)
    (resp : Except String TokenHTTPResponse) (req : Request) : ApplyResult :=
  let g := getValidToken s now resp
  match g.result with
  | .error e =>
      ⟨g.state, req, .error ("failed to get OAuth2 token: " ++ e), g.fetched⟩
  | .ok tok =>
      ⟨g.state, ⟨headerSet req.header "Authorization" ("Bearer " ++ tok)⟩,
        .ok (), g.fetched⟩

/-- The failure condition of a token fetch as the spec states it: transport
    error, non-success status, or a body without a non-empty access token. -/
def fetchFails (resp : Except String TokenHTTPResponse) : Bool :=
  match resp with
  | .error _ => true
  | .ok r =>
      decide (r.statusCode ≠ 200) ||
        (match r.body with
         | .error _ => true
         | .ok j => decide (j.accessToken = ""))

/-- Embedding of `auth.Config` (`src/auth/auth.go`). -/
structure AuthConfig where
  username : String
  password : String
  bearerToken : String
  clientID : String
  clientSecret : String
  tokenURL : String
  scopes : List String
  customHeader : String
  customValue : String

/-- The closed set of authenticator variants behind the `Authenticator`
    interface. -/
inductive Authenticator where
  | basic (b : BasicAuth)
  | bearer (b : BearerAuth)
  | oauth2 (o : OAuth2ClientCredentials)
  | custom (c : CustomAuth)
deriving DecidableEq

/-- Embedding of `auth.NewAuthenticator` (`src/auth/auth.go`): the fixed
    precedence order Basic > Bearer > OAuth2 > CustomHeader > none; the
    `nil, nil` fall-through is `Except.ok none`. -/
def NewAuthenticator (c : AuthConfig) : Except String (Option Authenticator) :=
  if c.username ≠ "" ∨ c.password ≠ "" then
    .ok (some (.basic (NewBasicAuth c.username c.password)))
  else if c.bearerToken ≠ "" then
    .ok (some (.bearer (NewBearerAuth c.bearerToken)))
  else if c.clientID ≠ "" ∧ c.clientSecret ≠ "" ∧ c.tokenURL ≠ "" then
    match NewOAuth2ClientCredentials c.clientID c.clientSecret c.tokenURL
      c.scopes with
    | .error e => .error e
    | .ok o => .ok (some (.oauth2 o))
  else if c.customHeader ≠ "" ∧ c.customValue ≠ "" then
    .ok (some (.custom (NewCustomAuth c.customHeader c.customValue)))
  else .ok none

/-- A caller's progress through `getValidToken` in the concurrent model:
    before the shared-lock check, waiting for the exclusive lock, or done
    with a result. -/
inductive Phase where
  | start
  | waiting
  | done (res : Except String String)

/-- Global state of `N` concurrent callers of `getValidToken` on one
    `OAuth2ClientCredentials`: the shared token cache, the number of
    token-endpoint requests issued so far, and each caller's phase. -/
structure Sys where
  cache : OAuthState
  fetchCount : Nat
  threads : List Phase

/-- One atomic critical section of caller `i`, faithful to the
    double-checked-locking structure of `getValidToken`: every access to
    the shared cache happens under the `RWMutex` (shared for the fast-path
    check, exclusive for the re-check and fetch), so an execution is an
    interleaving of these lock-serialised sections.  A `start` thread runs
    the shared-lock check and either finishes with the cached token or
    queues for the exclusive lock; a `waiting` thread holds the exclusive
    lock, re-checks, and fetches only if the cache is still invalid. -/
def lockStep (resp : Except String TokenHTTPResponse) (now : Int)
    (sys : Sys) (i : Nat) : Sys :=
  match sys.threads.get? i with
  | none => sys
  | some .start =>
      if tokenValid sys.cache now then
        { sys with threads := sys.threads.set i (.done (.ok sys.cache.token)) }
      else
        { sys with threads := sys.threads.set i .waiting }
  | some .waiting =>
      if tokenValid sys.cache now then
        { sys with threads := sys.threads.set i (.done (.ok sys.cache.token)) }
      else
        let (s', r) := fetchToken sys.cache resp now
        { cache := s', fetchCount := sys.fetchCount + 1,
          threads := sys.threads.set i (.done r) }
  | some (.done _) => sys

/-- Run a schedule: a list of thread indices, each taking one atomic
    critical section in turn. -/
def runSched (resp : Except String TokenHTTPResponse) (now : Int) :
    Sys → List Nat → Sys
  | sys, [] => sys
  | sys, i :: rest => runSched resp now (lockStep resp now sys i) rest

/-- `N` concurrent callers against an authenticator with no cached token:
    the cache starts empty (empty token, zero expiry like Go's zero
    `time.Time`) and every caller is about to enter `getValidToken`. -/
def initialSys (n : Nat) : Sys :=
  { cache := { token := "", expiry := 0 }, fetchCount := 0,
    threads := List.replicate n .start }

/-- The reachability invariant of the concurrent model under a successful
    token endpoint: either no fetch has happened yet (cache still empty,
    count zero, nobody done) or exactly one fetch has happened (cache warm
    with token `jtok` and expiry `e1`, count one, and every finished caller
    got `jtok`). -/
def C4Inv (jtok : String) (e1 : Int) (sys : Sys) : Prop :=
  (sys.cache = ⟨"", 0⟩ ∧ sys.fetchCount = 0 ∧
      ∀ p ∈ sys.threads, p = Phase.start ∨ p = Phase.waiting)
  ∨ (sys.cache = ⟨jtok, e1⟩ ∧ sys.fetchCount = 1 ∧
      ∀ p ∈ sys.threads, p = Phase.start ∨ p = Phase.waiting
        ∨ p = Phase.done (.ok jtok))

end HttpClient

namespace GoStrconv

theorem splitChar_ne_nil (sep : Char) (s : List Char) : splitChar sep s ≠ [] := by
  cases s with
  | nil => simp [splitChar]
  | cons x xs =>
      simp only [splitChar]
      cases h : splitChar sep xs with
      | nil => simp
      | cons r rs =>
          by_cases hx : x = sep <;> simp [hx]

/-- If the separator does not occur, `splitChar` returns the whole string as
    its single part. -/
theorem splitChar_of_not_mem (sep : Char) (s : List Char)
    (h : ∀ c ∈ s, c ≠ sep) : splitChar sep s = [s] := by
  induction s with
  | nil => rfl
  | cons x xs ih =>
      have hx : x ≠ sep := h x (List.mem_cons_self x xs)
      have hxs : ∀ c ∈ xs, c ≠ sep := fun c hc => h c (List.mem_cons_of_mem x hc)
      simp only [splitChar, ih hxs]
      simp [hx]

/-- Splitting around a single occurrence of the separator. -/
theorem splitChar_append_sep (sep : Char) (a b : List Char)
    (h : ∀ c ∈ a, c ≠ sep) :
    splitChar sep (a ++ sep :: b) = a :: splitChar sep b := by
  induction a with
  | nil =>
      simp only [List.nil_append, splitChar]
      cases hb : splitChar sep b with
      | nil => exact absurd hb (splitChar_ne_nil sep b)
      | cons r rs => simp
  | cons x xs ih =>
      have hx : x ≠ sep := h x (List.mem_cons_self x xs)
      have hxs : ∀ c ∈ xs, c ≠ sep := fun c hc => h c (List.mem_cons_of_mem x hc)
      simp only [List.cons_append, splitChar, List.append_eq]
      rw [ih hxs]
      simp [hx]

theorem isDigitChar_digitChar {d : Nat} (h : d < 10) :
    isDigitChar (digitChar d) = true := by
  interval_cases d <;> decide

theorem digitVal_digitChar {d : Nat} (h : d < 10) :
    digitVal (digitChar d) = d := by
  interval_cases d <;> decide

theorem parseNatFrom_append (acc : Nat) (xs ys : List Char) :
    parseNatFrom acc (xs ++ ys) =
      (parseNatFrom acc xs).bind (fun a => parseNatFrom a ys) := by
  induction xs generalizing acc with
  | nil => rfl
  | cons c cs ih =>
      simp only [List.cons_append, parseNatFrom]
      by_cases h : isDigitChar c <;> simp [h, ih]

theorem natToChars_all_digits (n : Nat) :
    ∀ c ∈ natToChars n, isDigitChar c = true := by
  induction n using Nat.strong_induction_on with
  | _ n ih =>
      rw [natToChars]
      by_cases h : n < 10
      · simp only [h, dite_true, List.mem_singleton]
        rintro c rfl
        exact isDigitChar_digitChar h
      · simp only [h, dite_false, List.mem_append, List.mem_singleton]
        rintro c (hc | rfl)
        · exact ih (n / 10) (Nat.div_lt_self (by omega) (by omega)) c hc
        · exact isDigitChar_digitChar (Nat.mod_lt n (by omega))

theorem natToChars_ne_nil (n : Nat) : natToChars n ≠ [] := by
  rw [natToChars]
  by_cases h : n < 10 <;> simp [h]

theorem parseNatFrom_natToChars (n : Nat) :
    ∀ acc, parseNatFrom acc (natToChars n) =
      some (acc * 10 ^ (natToChars n).length + n) := by
  induction n using Nat.strong_induction_on with
  | _ n ih =>
      intro acc
      rw [natToChars]
      by_cases h : n < 10
      · simp only [h, dite_true]
        simp [parseNatFrom, isDigitChar_digitChar h, digitVal_digitChar h]
      · simp only [h, dite_false]
        rw [parseNatFrom_append,
          ih (n / 10) (Nat.div_lt_self (by omega) (by omega)) acc]
        have h10 : n % 10 < 10 := Nat.mod_lt n (by omega)
        simp only [Option.some_bind, parseNatFrom, isDigitChar_digitChar h10,
          digitVal_digitChar h10, if_true, List.length_append,
          List.length_singleton]
        rw [pow_succ]
        congr 1
        have h2 : n / 10 * 10 + n % 10 = n := by omega
        calc (acc * 10 ^ (natToChars (n / 10)).length + n / 10) * 10 + n % 10
            = acc * (10 ^ (natToChars (n / 10)).length * 10)
                + (n / 10 * 10 + n % 10) := by ring
          _ = acc * (10 ^ (natToChars (n / 10)).length * 10) + n := by rw [h2]

theorem isDigitChar_ne_minus {c : Char} (h : isDigitChar c = true) : c ≠ '-' := by
  rintro rfl; simp [isDigitChar] at h

theorem isDigitChar_ne_plus {c : Char} (h : isDigitChar c = true) : c ≠ '+' := by
  rintro rfl; simp [isDigitChar] at h

theorem isDigitChar_ne_slash {c : Char} (h : isDigitChar c = true) : c ≠ '/' := by
  rintro rfl; simp [isDigitChar] at h

/-- `Atoi` is a left inverse of decimal rendering, up to the 64-bit range
    check. -/
theorem Atoi_natToChars (n : Nat) :
    Atoi (natToChars n) = if n ≤ 2 ^ 63 - 1 then some (n : Int) else none := by
  obtain ⟨c, cs, hcc⟩ : ∃ c cs, natToChars n = c :: cs := by
    cases h : natToChars n with
    | nil => exact absurd h (natToChars_ne_nil n)
    | cons c cs => exact ⟨c, cs, rfl⟩
  have hdig : isDigitChar c = true := by
    apply natToChars_all_digits n
    rw [hcc]; exact List.mem_cons_self c cs
  have hparse : parseNatFrom 0 (c :: cs) = some n := by
    rw [← hcc, parseNatFrom_natToChars n 0]
    simp
  rw [hcc]
  simp only [Atoi, if_neg (isDigitChar_ne_minus hdig),
    if_neg (isDigitChar_ne_plus hdig)]
  simp only [atoiDigits, hparse]
  have h0 : (0 : Int) ≤ (n : Int) := Int.natCast_nonneg n
  simp only [Bool.false_eq_true, if_false]
  by_cases hr : n ≤ 2 ^ 63 - 1
  · rw [if_pos hr, if_pos ⟨by omega, by omega⟩]
  · rw [if_neg hr,
      if_neg (by omega : ¬(-(2 ^ 63) ≤ (n : Int) ∧ (n : Int) ≤ 2 ^ 63 - 1))]

end GoStrconv

namespace HttpClient

open GoStrconv GoTime

/-- Helper: an `Allow` at the same instant as the limiter's last update,
    with a whole number of tokens not exceeding the burst, consumes one
    token when one is available and fails otherwise. -/
theorem Allow_at_rest (limit : ℚ) (b : Int) (t : ℚ) (m : Nat)
    (hm : (m : ℚ) ≤ (b : ℚ)) :
    RateLimiter.Allow ⟨some ⟨limit, b, (m : ℚ), t⟩, true⟩ t =
      if 1 ≤ m then
        (Except.ok (), ⟨some ⟨limit, b, ((m - 1 : Nat) : ℚ), t⟩, true⟩)
      else
        (Except.error "rate limit exceeded",
          ⟨some ⟨limit, b, (m : ℚ), t⟩, true⟩) := by
  have hadv : Limiter.advance ⟨limit, b, (m : ℚ), t⟩ t = (m : ℚ) := by
    simp [Limiter.advance, sub_self, min_eq_left hm]
  simp only [RateLimiter.Allow, Limiter.allowAt, hadv]
  rw [if_neg (by simp)]
  by_cases h1 : 1 ≤ m
  · have h1q : (1 : ℚ) ≤ (m : ℚ) := by exact_mod_cast h1
    have hcast : (m : ℚ) - 1 = ((m - 1 : Nat) : ℚ) := by
      push_cast [Nat.cast_sub h1]; ring
    rw [if_pos h1, if_pos h1q]
    simp [hcast]
  · have h1q : ¬(1 : ℚ) ≤ (m : ℚ) := by
      intro hc; exact h1 (by exact_mod_cast hc)
    rw [if_neg h1, if_neg h1q]
    simp

/-- Helper: starting from a whole number `m ≤ burst` of tokens at time `t`,
    `n` consecutive `Allow` calls at `t` succeed `min n m` times and then
    fail, leaving `m - min n m` tokens. -/
theorem allowTimes_drain (limit : ℚ) (b : Int) (t : ℚ) :
    ∀ (n m : Nat), (m : ℚ) ≤ (b : ℚ) →
    RateLimiter.allowTimes ⟨some ⟨limit, b, (m : ℚ), t⟩, true⟩ t n
    = (List.replicate (min n m) (Except.ok ())
        ++ List.replicate (n - min n m) (Except.error "rate limit exceeded"),
       ⟨some ⟨limit, b, ((m - min n m : Nat) : ℚ), t⟩, true⟩) := by
  intro n
  induction n with
  | zero => intro m hm; simp [RateLimiter.allowTimes]
  | succ n ih =>
      intro m hm
      simp only [RateLimiter.allowTimes]
      rw [Allow_at_rest limit b t m hm]
      rcases Nat.eq_zero_or_pos m with hm0 | hmpos
      · subst hm0
        rw [if_neg (by omega)]
        dsimp only
        rw [ih 0 hm]
        simp [List.replicate_succ]
      · rw [if_pos (show 1 ≤ m by omega)]
        dsimp only
        have hmb' : ((m - 1 : Nat) : ℚ) ≤ (b : ℚ) := by
          have : ((m - 1 : Nat) : ℚ) ≤ (m : ℚ) := by
            exact_mod_cast Nat.sub_le m 1
          linarith
        rw [ih (m - 1) hmb']
        have hmin : min (n + 1) m = min n (m - 1) + 1 := by omega
        rw [hmin]
        have hsub : n + 1 - (n ⊓ (m - 1) + 1) = n - n ⊓ (m - 1) := by omega
        have hsub2 : m - (n ⊓ (m - 1) + 1) = m - 1 - n ⊓ (m - 1) := by omega
        rw [hsub, hsub2]
        simp [List.replicate_succ]

/-- Helper: `parseRate` on the rendered string `N/s` with `N` a positive
    64-bit value yields limit `N` permits/second and burst `N`. -/
theorem parseRate_natToChars_s (N : Nat) (h0 : 0 < N) (hr : N ≤ 2 ^ 63 - 1) :
    parseRate (natToChars N ++ ['/', 's']) = .ok ((N : ℚ), (N : Int)) := by
  have hnos : ∀ c ∈ natToChars N, c ≠ '/' := fun c hc =>
    isDigitChar_ne_slash (natToChars_all_digits N c hc)
  have hsplit : splitChar '/' (natToChars N ++ ['/', 's']) =
      [natToChars N, ['s']] := by
    rw [show (['/', 's'] : List Char) = '/' :: ['s'] from rfl,
      splitChar_append_sep '/' (natToChars N) ['s'] hnos]
    rfl
  simp only [parseRate, hsplit, Atoi_natToChars, if_pos hr]
  rw [if_neg (by omega : ¬(N : Int) ≤ 0)]
  have hdur : parseDuration ['s'] = .ok 1000000000 := rfl
  rw [hdur]
  norm_num

/-- Helper: `parseRate` on `N/s` with `N` beyond the 64-bit range fails in
    `Atoi`. -/
theorem parseRate_natToChars_s_big (N : Nat) (hr : ¬N ≤ 2 ^ 63 - 1) :
    parseRate (natToChars N ++ ['/', 's']) =
      .error "requests must be a positive integer" := by
  have hnos : ∀ c ∈ natToChars N, c ≠ '/' := fun c hc =>
    isDigitChar_ne_slash (natToChars_all_digits N c hc)
  have hsplit : splitChar '/' (natToChars N ++ ['/', 's']) =
      [natToChars N, ['s']] := by
    rw [show (['/', 's'] : List Char) = '/' :: ['s'] from rfl,
      splitChar_append_sep '/' (natToChars N) ['s'] hnos]
    rfl
  simp only [parseRate, hsplit, Atoi_natToChars, if_neg hr]

/-- Helper: constructing a limiter from the rendered rate string `N/s`. -/
theorem New_natToChars_s (N : Nat) (h0 : 0 < N) (hr : N ≤ 2 ^ 63 - 1) (t : ℚ) :
    RateLimiter.New (natToChars N ++ ['/', 's']) t =
      .ok ⟨some ⟨(N : ℚ), (N : Int), (N : ℚ), t⟩, true⟩ := by
  have hne : natToChars N ++ ['/', 's'] ≠ [] := by
    simp
  simp only [RateLimiter.New, if_neg hne, parseRate_natToChars_s N h0 hr]
  have : ((N : Int) : ℚ) = (N : ℚ) := by push_cast; ring
  simp [rateNewLimiter, this]

/-- C1: for every positive integer `N`, a `RateLimiter` constructed from
    the rate specification `N/s` admits exactly `N` consecutive `Allow`
    calls with no elapsed time, each succeeding, and the `(N+1)`-th call
    fails with the rate-limit-exceeded error. -/
theorem C1_N_per_s_admits_exactly_N (N : Nat) (t : ℚ) (L : RateLimiter)
    (h0 : 0 < N)
    (hnew : RateLimiter.New (natToChars N ++ ['/', 's']) t = .ok L) :
    (L.allowTimes t (N + 1)).1 =
      List.replicate N (Except.ok ())
        ++ [Except.error "rate limit exceeded"] := by
  by_cases hr : N ≤ 2 ^ 63 - 1
  · rw [New_natToChars_s N h0 hr t] at hnew
    obtain rfl : (⟨some ⟨(N : ℚ), (N : Int), (N : ℚ), t⟩, true⟩ : RateLimiter)
        = L := by
      injection hnew
    have hmb : (N : ℚ) ≤ ((N : Int) : ℚ) := le_of_eq (by push_cast; ring)
    rw [allowTimes_drain (N : ℚ) (N : Int) t (N + 1) N hmb]
    dsimp only
    rw [show min (N + 1) N = N from by omega,
      show N + 1 - N = 1 from by omega]
    simp [List.replicate]
  · exfalso
    have hne : natToChars N ++ ['/', 's'] ≠ [] := by simp
    rw [RateLimiter.New, if_neg hne, parseRate_natToChars_s_big N hr] at hnew
    exact absurd hnew (by simp)

/-- Witness for C1 at `N = 3`, `t = 0`. -/
theorem C1_N_per_s_admits_exactly_N_witness :
    (RateLimiter.allowTimes ⟨some ⟨3, 3, 3, 0⟩, true⟩ 0 4).1 =
      List.replicate 3 (Except.ok ())
        ++ [Except.error "rate limit exceeded"] := by
  have hres := C1_N_per_s_admits_exactly_N 3 0
    ⟨some ⟨((3 : Nat) : ℚ), ((3 : Nat) : Int), ((3 : Nat) : ℚ), 0⟩, true⟩
    (by omega) (New_natToChars_s 3 (by omega) (by omega) 0)
  have hcast : (⟨some ⟨((3 : Nat) : ℚ), ((3 : Nat) : Int), ((3 : Nat) : ℚ), 0⟩,
      true⟩ : RateLimiter) = ⟨some ⟨3, 3, 3, 0⟩, true⟩ := by
    norm_num
  rw [hcast] at hres
  exact hres

/-- C8: rate-limiter construction fails for `0/s`, `-10/s`, `10/xyz` and
    for every non-empty rate string containing no `/`; it succeeds for
    `10/s`, `100/30s`, `50/m` and `1000/h` with limit `requests` divided by
    the duration in seconds and burst `requests`. -/
theorem C8_construction_cases (t : ℚ) :
    RateLimiter.New ("0/s".toList) t =
      .error "invalid rate format: requests must be a positive integer"
    ∧ RateLimiter.New ("-10/s".toList) t =
      .error "invalid rate format: requests must be a positive integer"
    ∧ RateLimiter.New ("10/xyz".toList) t =
      .error "invalid rate format: invalid duration: duration must be a valid time duration (e.g., 's', '30s', 'm', 'h') or a number followed by a unit"
    ∧ (∀ s : List Char, s ≠ [] → '/' ∉ s →
        RateLimiter.New s t =
          .error "invalid rate format: rate must be in format 'requests/duration' (e.g., '10/s', '100/30s')")
    ∧ RateLimiter.New ("10/s".toList) t =
        .ok ⟨some (rateNewLimiter ((10 : ℚ) / 1) 10 t), true⟩
    ∧ RateLimiter.New ("100/30s".toList) t =
        .ok ⟨some (rateNewLimiter ((100 : ℚ) / 30) 100 t), true⟩
    ∧ RateLimiter.New ("50/m".toList) t =
        .ok ⟨some (rateNewLimiter ((50 : ℚ) / 60) 50 t), true⟩
    ∧ RateLimiter.New ("1000/h".toList) t =
        .ok ⟨some (rateNewLimiter ((1000 : ℚ) / 3600) 1000 t), true⟩ := by
  refine ⟨rfl, rfl, rfl, ?_, ?_, ?_, ?_, ?_⟩
  · intro s hne hmem
    have hnos : ∀ c ∈ s, c ≠ '/' := fun c hc hce => hmem (hce ▸ hc)
    have hp : parseRate s =
        .error "rate must be in format 'requests/duration' (e.g., '10/s', '100/30s')" := by
      simp only [parseRate, splitChar_of_not_mem '/' s hnos]
    simp only [RateLimiter.New, if_neg hne, hp]
    rfl
  · have hp : parseRate ("10/s".toList) =
        .ok ((10 : ℚ) / ((1000000000 : ℚ) / 1000000000), 10) := rfl
    simp only [RateLimiter.New, if_neg (show ¬("10/s".toList = []) by decide), hp]
    norm_num
  · have hp : parseRate ("100/30s".toList) =
        .ok ((100 : ℚ) / ((30000000000 : ℚ) / 1000000000), 100) := rfl
    simp only [RateLimiter.New, if_neg (show ¬("100/30s".toList = []) by decide), hp]
    norm_num
  · have hp : parseRate ("50/m".toList) =
        .ok ((50 : ℚ) / ((60000000000 : ℚ) / 1000000000), 50) := rfl
    simp only [RateLimiter.New, if_neg (show ¬("50/m".toList = []) by decide), hp]
    norm_num
  · have hp : parseRate ("1000/h".toList) =
        .ok ((1000 : ℚ) / ((3600000000000 : ℚ) / 1000000000), 1000) := rfl
    simp only [RateLimiter.New, if_neg (show ¬("1000/h".toList = []) by decide), hp]
    norm_num

/-- Witness for C8: the no-`/` clause applied to the concrete string `abc`
    at `t = 0`. -/
theorem C8_construction_cases_witness :
    RateLimiter.New ("abc".toList) 0 =
      .error "invalid rate format: rate must be in format 'requests/duration' (e.g., '10/s', '100/30s')" :=
  (C8_construction_cases 0).2.2.2.1 ("abc".toList) (by decide) (by decide)

/-- C7: `SetRate("")` succeeds and disables the limiter while retaining its
    bucket; a subsequent `SetRate("5/s")` succeeds, enables it, and sets
    the effective burst to 5. -/
theorem C7_setrate_disable_then_enable (rl : RateLimiter) (t₁ t₂ : ℚ) :
    (rl.SetRate [] t₁).1 = .ok ()
    ∧ (rl.SetRate [] t₁).2.IsEnabled = false
    ∧ (rl.SetRate [] t₁).2.limiter = rl.limiter
    ∧ ((rl.SetRate [] t₁).2.SetRate ("5/s".toList) t₂).1 = .ok ()
    ∧ ((rl.SetRate [] t₁).2.SetRate ("5/s".toList) t₂).2.IsEnabled = true
    ∧ (∃ l, ((rl.SetRate [] t₁).2.SetRate ("5/s".toList) t₂).2.limiter = some l
        ∧ l.burst = 5) := by
  obtain ⟨lim, en⟩ := rl
  have hdis : (⟨lim, en⟩ : RateLimiter).SetRate [] t₁ = (.ok (), ⟨lim, false⟩) := rfl
  rw [hdis]
  refine ⟨rfl, rfl, rfl, ?_⟩
  cases lim with
  | none =>
      have hstep : (⟨none, false⟩ : RateLimiter).SetRate ("5/s".toList) t₂ =
          (.ok (), ⟨some (rateNewLimiter
            ((5 : ℚ) / ((1000000000 : ℚ) / 1000000000)) 5 t₂), true⟩) := rfl
      rw [hstep]
      exact ⟨rfl, rfl, _, rfl, rfl⟩
  | some l =>
      have hstep : (⟨some l, false⟩ : RateLimiter).SetRate ("5/s".toList) t₂ =
          (.ok (), ⟨some ((l.setLimitAt t₂
            ((5 : ℚ) / ((1000000000 : ℚ) / 1000000000))).setBurstAt t₂ 5),
            true⟩) := rfl
      rw [hstep]
      exact ⟨rfl, rfl, _, rfl, rfl⟩

/-- Helper: a limiter built by `New` has a bucket whenever it is enabled. -/
theorem New_enabled_imp_limiter (rateStr : List Char) (t : ℚ)
    (rl : RateLimiter) (h : RateLimiter.New rateStr t = .ok rl) :
    rl.enabled = true → rl.limiter.isSome := by
  by_cases he : rateStr = []
  · rw [RateLimiter.New, if_pos he] at h
    injection h with h2
    subst h2
    intro hc
    simp at hc
  · rw [RateLimiter.New, if_neg he] at h
    rcases hpr : parseRate rateStr with e | ⟨limit, burst⟩ <;> rw [hpr] at h
    · exact absurd h (by simp)
    · injection h with h2
      subst h2
      intro
      simp

/-- Helper: `SetRate` preserves the enabled-implies-bucket invariant. -/
theorem SetRate_enabled_imp_limiter (rl : RateLimiter) (rateStr : List Char)
    (t : ℚ) (h : rl.enabled = true → rl.limiter.isSome) :
    (rl.SetRate rateStr t).2.enabled = true →
      (rl.SetRate rateStr t).2.limiter.isSome := by
  by_cases he : rateStr = []
  · rw [RateLimiter.SetRate, if_pos he]
    intro hc
    simp at hc
  · rw [RateLimiter.SetRate, if_neg he]
    rcases hpr : parseRate rateStr with e | ⟨limit, burst⟩
    · exact h
    · cases hl : rl.limiter <;> simp

/-- C6 counterexample: `Stats` of an enabled limiter constructed from
    `10/s` has no key `availableTokens` (the token-count key is `tokens`). -/
theorem C6_stats_key_counterexample :
    RateLimiter.New ("10/s".toList) 0 =
      .ok ⟨some (rateNewLimiter ((10 : ℚ) / ((1000000000 : ℚ) / 1000000000))
        10 0), true⟩
    ∧ (⟨some (rateNewLimiter ((10 : ℚ) / ((1000000000 : ℚ) / 1000000000))
        10 0), true⟩ : RateLimiter).IsEnabled = true
    ∧ ((⟨some (rateNewLimiter ((10 : ℚ) / ((1000000000 : ℚ) / 1000000000))
        10 0), true⟩ : RateLimiter).Stats 0).lookup "availableTokens" = none :=
  ⟨rfl, rfl, rfl⟩

/-- C6 (amended): `Stats` always contains the key `enabled` carrying the
    enabled flag; for limiters satisfying the API invariant (enabled
    implies the bucket exists) the numeric fields are present exactly when
    the limiter is enabled, under the keys `limit` (float), `burst` (int)
    and `tokens` (float available-token count); when disabled the mapping
    is exactly `{enabled: false}`. -/
theorem C6_stats_fields (rl : RateLimiter) (t : ℚ)
    (hinv : rl.enabled = true → rl.limiter.isSome) :
    (rl.Stats t).lookup "enabled" = some (.b rl.enabled)
    ∧ ((rl.Stats t).lookup "limit").isSome = rl.enabled
    ∧ ((rl.Stats t).lookup "burst").isSome = rl.enabled
    ∧ ((rl.Stats t).lookup "tokens").isSome = rl.enabled
    ∧ (rl.enabled = false → rl.Stats t = [("enabled", .b false)])
    ∧ (rl.enabled = true → ∃ l, rl.limiter = some l
        ∧ (rl.Stats t).lookup "limit" = some (.f l.limit)
        ∧ (rl.Stats t).lookup "burst" = some (.i l.burst)
        ∧ (rl.Stats t).lookup "tokens" = some (.f (l.tokensAt t))) := by
  obtain ⟨lim, en⟩ := rl
  cases en
  · simp [RateLimiter.Stats, List.lookup]
  · have hsome : lim.isSome := hinv rfl
    cases lim with
    | none => simp at hsome
    | some l =>
        refine ⟨?_, ?_, ?_, ?_, by simp, fun _ => ⟨l, rfl, ?_, ?_, ?_⟩⟩ <;>
          simp [RateLimiter.Stats, List.lookup]

/-- Witness for C6 (amended) at a disabled limiter with no bucket. -/
theorem C6_stats_fields_witness :
    ((⟨none, false⟩ : RateLimiter).Stats 0).lookup "enabled" =
        some (.b (⟨none, false⟩ : RateLimiter).enabled)
    ∧ (((⟨none, false⟩ : RateLimiter).Stats 0).lookup "limit").isSome =
        (⟨none, false⟩ : RateLimiter).enabled
    ∧ (((⟨none, false⟩ : RateLimiter).Stats 0).lookup "burst").isSome =
        (⟨none, false⟩ : RateLimiter).enabled
    ∧ (((⟨none, false⟩ : RateLimiter).Stats 0).lookup "tokens").isSome =
        (⟨none, false⟩ : RateLimiter).enabled
    ∧ ((⟨none, false⟩ : RateLimiter).enabled = false →
        (⟨none, false⟩ : RateLimiter).Stats 0 = [("enabled", .b false)])
    ∧ ((⟨none, false⟩ : RateLimiter).enabled = true →
        ∃ l, (⟨none, false⟩ : RateLimiter).limiter = some l
        ∧ ((⟨none, false⟩ : RateLimiter).Stats 0).lookup "limit" =
            some (.f l.limit)
        ∧ ((⟨none, false⟩ : RateLimiter).Stats 0).lookup "burst" =
            some (.i l.burst)
        ∧ ((⟨none, false⟩ : RateLimiter).Stats 0).lookup "tokens" =
            some (.f (l.tokensAt 0))) :=
  C6_stats_fields ⟨none, false⟩ 0 (by simp)

/-- C5: `NewAuthenticator` instantiates at most one variant by the fixed
    precedence Basic (username or password set) > Bearer (token set) >
    OAuth2 (clientID, clientSecret, tokenURL all set) > CustomHeader (both
    header and value set) > none, with no error on fall-through. -/
theorem C5_new_authenticator_precedence (c : AuthConfig) :
    (c.username ≠ "" ∨ c.password ≠ "" →
      NewAuthenticator c =
        .ok (some (.basic (NewBasicAuth c.username c.password))))
    ∧ (c.username = "" → c.password = "" → c.bearerToken ≠ "" →
      NewAuthenticator c = .ok (some (.bearer (NewBearerAuth c.bearerToken))))
    ∧ (c.username = "" → c.password = "" → c.bearerToken = "" →
      c.clientID ≠ "" → c.clientSecret ≠ "" → c.tokenURL ≠ "" →
      NewAuthenticator c =
        .ok (some (.oauth2 ⟨c.clientID, c.clientSecret, c.tokenURL, c.scopes⟩)))
    ∧ (c.username = "" → c.password = "" → c.bearerToken = "" →
      ¬(c.clientID ≠ "" ∧ c.clientSecret ≠ "" ∧ c.tokenURL ≠ "") →
      c.customHeader ≠ "" → c.customValue ≠ "" →
      NewAuthenticator c =
        .ok (some (.custom (NewCustomAuth c.customHeader c.customValue))))
    ∧ (c.username = "" → c.password = "" → c.bearerToken = "" →
      ¬(c.clientID ≠ "" ∧ c.clientSecret ≠ "" ∧ c.tokenURL ≠ "") →
      ¬(c.customHeader ≠ "" ∧ c.customValue ≠ "") →
      NewAuthenticator c = .ok none) := by
  refine ⟨?_, ?_, ?_, ?_, ?_⟩
  · intro h
    rw [NewAuthenticator, if_pos h]
  · intro hu hp hb
    rw [NewAuthenticator, if_neg (by simp [hu, hp]), if_pos hb]
  · intro hu hp hb hc hs ht
    have hngo : NewOAuth2ClientCredentials c.clientID c.clientSecret
        c.tokenURL c.scopes =
        .ok ⟨c.clientID, c.clientSecret, c.tokenURL, c.scopes⟩ := by
      rw [NewOAuth2ClientCredentials, if_neg (by simp [hc, hs, ht])]
    rw [NewAuthenticator, if_neg (by simp [hu, hp]), if_neg (by simp [hb]),
      if_pos ⟨hc, hs, ht⟩]
    rw [hngo]
  · intro hu hp hb hno hch hcv
    rw [NewAuthenticator, if_neg (by simp [hu, hp]), if_neg (by simp [hb]),
      if_neg hno, if_pos ⟨hch, hcv⟩]
  · intro hu hp hb hno hnc
    rw [NewAuthenticator, if_neg (by simp [hu, hp]), if_neg (by simp [hb]),
      if_neg hno, if_neg hnc]

/-- Witness for C5: a configuration with only the bearer token set selects
    the Bearer variant. -/
theorem C5_new_authenticator_precedence_witness :
    NewAuthenticator ⟨"", "", "tok", "", "", "", [], "", ""⟩ =
      .ok (some (.bearer (NewBearerAuth "tok"))) :=
  (C5_new_authenticator_precedence ⟨"", "", "tok", "", "", "", [], "", ""⟩).2.1
    rfl rfl (by simp)

/-- C9: the Basic, Bearer and CustomHeader authenticators never return an
    error; with empty credentials they leave the request unchanged, and
    with non-empty credentials they set exactly the documented header. -/
theorem C9_simple_authenticators (req : Request) (u p tok hname hval : String) :
    (BasicAuth.Apply ⟨u, p⟩ req).1 = .ok ()
    ∧ (u = "" → p = "" → (BasicAuth.Apply ⟨u, p⟩ req).2 = req)
    ∧ (u ≠ "" ∨ p ≠ "" → (BasicAuth.Apply ⟨u, p⟩ req).2 =
        ⟨headerSet req.header "Authorization"
          ("Basic " ++ base64String (u ++ ":" ++ p))⟩)
    ∧ (BearerAuth.Apply ⟨tok⟩ req).1 = .ok ()
    ∧ (tok = "" → (BearerAuth.Apply ⟨tok⟩ req).2 = req)
    ∧ (tok ≠ "" → (BearerAuth.Apply ⟨tok⟩ req).2 =
        ⟨headerSet req.header "Authorization" ("Bearer " ++ tok)⟩)
    ∧ (CustomAuth.Apply ⟨hname, hval⟩ req).1 = .ok ()
    ∧ (hname = "" ∨ hval = "" → (CustomAuth.Apply ⟨hname, hval⟩ req).2 = req)
    ∧ (hname ≠ "" ∧ hval ≠ "" → (CustomAuth.Apply ⟨hname, hval⟩ req).2 =
        ⟨headerSet req.header hname hval⟩) := by
  refine ⟨?_, ?_, ?_, ?_, ?_, ?_, ?_, ?_, ?_⟩
  · by_cases h : u ≠ "" ∨ p ≠ "" <;> simp [BasicAuth.Apply, h]
  · intro hu hp
    rw [BasicAuth.Apply, if_neg (by simp [hu, hp])]
  · intro h
    rw [BasicAuth.Apply, if_pos h]
  · by_cases h : tok ≠ "" <;> simp [BearerAuth.Apply, h]
  · intro ht
    rw [BearerAuth.Apply, if_neg (by simp [ht])]
  · intro ht
    rw [BearerAuth.Apply, if_pos ht]
  · by_cases h : hname ≠ "" ∧ hval ≠ "" <;> simp [CustomAuth.Apply, h]
  · intro h
    rw [CustomAuth.Apply, if_neg (by rcases h with h | h <;> simp [h])]
  · intro h
    rw [CustomAuth.Apply, if_pos h]

/-- Witness for C9: `BasicAuth` with non-empty credentials sets exactly the
    basic-auth header on an empty request. -/
theorem C9_simple_authenticators_witness :
    (BasicAuth.Apply ⟨"alice", "pw"⟩ ⟨fun _ => none⟩).2 =
      ⟨headerSet (⟨fun _ => none⟩ : Request).header "Authorization"
        ("Basic " ++ base64String ("alice" ++ ":" ++ "pw"))⟩ :=
  (C9_simple_authenticators ⟨fun _ => none⟩ "alice" "pw" "tk" "X-API-Key"
    "v").2.2.1 (Or.inl (by simp))

/-- Helper: whenever the token fetch fails (transport error, non-200
    status, undecodable body, or empty access token), `fetchToken` returns
    an error and leaves the cache exactly as it was. -/
theorem fetchToken_fails (s : OAuthState) (resp : Except String TokenHTTPResponse)
    (now : Int) (hbad : fetchFails resp = true) :
    ∃ e, fetchToken s resp now = (s, .error e) := by
  cases resp with
  | error e => exact ⟨"token request failed: " ++ e, rfl⟩
  | ok r =>
      by_cases hst : r.statusCode ≠ 200
      · exact ⟨"token request failed with status: " ++ r.status,
          by simp [fetchToken, hst]⟩
      · cases hb : r.body with
        | error e => exact ⟨"failed to decode token response: " ++ e,
            by simp [fetchToken, hst, hb]⟩
        | ok j =>
            have hat : j.accessToken = "" := by
              simp [fetchFails, hst, hb] at hbad
              exact hbad
            exact ⟨"no access token in response",
              by simp [fetchToken, hst, hb, hat]⟩

/-- C2: if the cache holds no valid token and the token fetch fails, then
    `Apply` returns an error, sets no header on the request, and leaves the
    cached token and expiry exactly as they were. -/
theorem C2_apply_failure_preserves_state (s : OAuthState) (now : Int)
    (resp : Except String TokenHTTPResponse) (req : Request)
    (hmiss : tokenValid s now = false)
    (hbad : fetchFails resp = true) :
    ∃ e, OAuth2Apply s now resp req = ⟨s, req, .error e, true⟩ := by
  obtain ⟨e, hf⟩ := fetchToken_fails s resp now hbad
  have hg : getValidToken s now resp = ⟨s, .error e, true⟩ := by
    rw [getValidToken, if_neg (by simp [hmiss]), if_neg (by simp [hmiss]), hf]
  refine ⟨"failed to get OAuth2 token: " ++ e, ?_⟩
  simp [OAuth2Apply, hg]

/-- Witness for C2: a transport failure against an empty cache. -/
theorem C2_apply_failure_preserves_state_witness :
    ∃ e, OAuth2Apply ⟨"", 0⟩ 0 (.error "boom") ⟨fun _ => none⟩ =
      ⟨⟨"", 0⟩, ⟨fun _ => none⟩, .error e, true⟩ :=
  C2_apply_failure_preserves_state ⟨"", 0⟩ 0 (.error "boom") ⟨fun _ => none⟩
    rfl rfl

/-- C3: a successful fetch caches the returned token with expiry
    `now + (expiresIn - 60)` seconds when `expiresIn > 0`, else
    `now + 55` minutes. -/
theorem C3_expiry_computation (s : OAuthState) (now : Int)
    (r : TokenHTTPResponse) (j : TokenResponseJSON)
    (hst : r.statusCode = 200) (hb : r.body = .ok j)
    (hat : j.accessToken ≠ "") :
    fetchToken s (.ok r) now =
      ({ token := j.accessToken,
         expiry := if j.expiresIn > 0 then now + (j.expiresIn - 60)
                   else now + 55 * 60 }, .ok j.accessToken) := by
  simp [fetchToken, hst, hb, hat]

/-- Witness for C3: `expires_in = 3600` at `now = 100` caches expiry
    `3640 = 100 + 3600 - 60`. -/
theorem C3_expiry_computation_witness :
    fetchToken ⟨"", 0⟩ (.ok ⟨200, "200 OK", .ok ⟨"abc", "Bearer", 3600⟩⟩) 100 =
      (⟨"abc", 3640⟩, .ok "abc") := by
  rw [C3_expiry_computation ⟨"", 0⟩ 100 ⟨200, "200 OK", .ok ⟨"abc", "Bearer", 3600⟩⟩
    ⟨"abc", "Bearer", 3600⟩ rfl rfl (by simp)]
  norm_num

/-- C10: after a successful fetch with `0 < expiresIn ≤ 60` the cached
    expiry is not in the future, the cached token is never observed as
    valid at any later time, and every subsequent `getValidToken`/`Apply`
    performs another network fetch instead of using the cache. -/
theorem C10_short_expiry_never_cached (s : OAuthState) (now : Int)
    (r : TokenHTTPResponse) (j : TokenResponseJSON)
    (hst : r.statusCode = 200) (hb : r.body = .ok j)
    (hat : j.accessToken ≠ "") (hlo : 0 < j.expiresIn)
    (hhi : j.expiresIn ≤ 60) :
    (fetchToken s (.ok r) now).1.expiry ≤ now
    ∧ (∀ now2 : Int, now ≤ now2 →
        tokenValid (fetchToken s (.ok r) now).1 now2 = false)
    ∧ (∀ (now2 : Int) (resp2 : Except String TokenHTTPResponse), now ≤ now2 →
        getValidToken (fetchToken s (.ok r) now).1 now2 resp2 =
          ⟨(fetchToken (fetchToken s (.ok r) now).1 resp2 now2).1,
           (fetchToken (fetchToken s (.ok r) now).1 resp2 now2).2, true⟩)
    ∧ (∀ (now2 : Int) (resp2 : Except String TokenHTTPResponse)
        (req : Request), now ≤ now2 →
        (OAuth2Apply (fetchToken s (.ok r) now).1 now2 resp2 req).fetched =
          true) := by
  have hft := C3_expiry_computation s now r j hst hb hat
  have hexp : (fetchToken s (.ok r) now).1.expiry = now + (j.expiresIn - 60) := by
    rw [hft]
    simp [hlo]
  have h1 : (fetchToken s (.ok r) now).1.expiry ≤ now := by omega
  have h2 : ∀ now2 : Int, now ≤ now2 →
      tokenValid (fetchToken s (.ok r) now).1 now2 = false := by
    intro now2 hn
    simp only [tokenValid, decide_eq_false_iff_not]
    rintro ⟨-, hlt⟩
    omega
  have h3 : ∀ (now2 : Int) (resp2 : Except String TokenHTTPResponse),
      now ≤ now2 →
      getValidToken (fetchToken s (.ok r) now).1 now2 resp2 =
        ⟨(fetchToken (fetchToken s (.ok r) now).1 resp2 now2).1,
         (fetchToken (fetchToken s (.ok r) now).1 resp2 now2).2, true⟩ := by
    intro now2 resp2 hn
    rw [getValidToken, if_neg (by simp [h2 now2 hn]),
      if_neg (by simp [h2 now2 hn])]
  refine ⟨h1, h2, h3, ?_⟩
  intro now2 resp2 req hn
  simp only [OAuth2Apply, h3 now2 resp2 hn]
  cases (fetchToken (fetchToken s (.ok r) now).1 resp2 now2).2 <;> rfl

/-- Witness for C10: `expires_in = 30` at `now = 0`; an `Apply` at time 5
    with a failing transport still fetches. -/
theorem C10_short_expiry_never_cached_witness :
    (OAuth2Apply (fetchToken ⟨"", 0⟩
        (.ok ⟨200, "200 OK", .ok ⟨"abc", "Bearer", 30⟩⟩) 0).1
      5 (.error "down") ⟨fun _ => none⟩).fetched = true :=
  (C10_short_expiry_never_cached ⟨"", 0⟩ 0
      ⟨200, "200 OK", .ok ⟨"abc", "Bearer", 30⟩⟩ ⟨"abc", "Bearer", 30⟩
      rfl rfl (by simp) (by decide) (by decide)).2.2.2
    5 (.error "down") ⟨fun _ => none⟩ (by omega)

/-- Helper: one critical section preserves the thread count. -/
theorem lockStep_threads_length (resp : Except String TokenHTTPResponse)
    (now : Int) (sys : Sys) (i : Nat) :
    (lockStep resp now sys i).threads.length = sys.threads.length := by
  rw [lockStep]
  cases hg : sys.threads.get? i with
  | none => rfl
  | some ph =>
      cases ph with
      | start => by_cases hv : tokenValid sys.cache now <;> simp [hv]
      | waiting => by_cases hv : tokenValid sys.cache now <;> simp [hv]
      | done res => rfl

/-- Helper: a whole schedule preserves the thread count. -/
theorem runSched_threads_length (resp : Except String TokenHTTPResponse)
    (now : Int) (sys : Sys) (sched : List Nat) :
    (runSched resp now sys sched).threads.length = sys.threads.length := by
  induction sched generalizing sys with
  | nil => rfl
  | cons i rest ih =>
      rw [runSched, ih, lockStep_threads_length]

/-- Helper: one critical section preserves the invariant, given a token
    endpoint whose fetch succeeds with a non-empty token and an expiry
    strictly in the future. -/
theorem C4Inv_lockStep (now e1 : Int) (jtok : String)
    (resp : Except String TokenHTTPResponse)
    (hat : jtok ≠ "") (hfresh : now < e1)
    (hfetch : fetchToken ⟨"", 0⟩ resp now = (⟨jtok, e1⟩, .ok jtok))
    (sys : Sys) (i : Nat) (h : C4Inv jtok e1 sys) :
    C4Inv jtok e1 (lockStep resp now sys i) := by
  have hcold : tokenValid ⟨"", 0⟩ now = false := by simp [tokenValid]
  have hwarm : tokenValid ⟨jtok, e1⟩ now = true := by
    simp [tokenValid, hat, hfresh]
  rcases h with ⟨hc, hf, hth⟩ | ⟨hc, hf, hth⟩
  · rw [lockStep]
    cases hg : sys.threads.get? i with
    | none => exact Or.inl ⟨hc, hf, hth⟩
    | some ph =>
        have hmem : ph ∈ sys.threads := List.get?_mem hg
        cases ph with
        | start =>
            rw [hc, hcold]
            simp only [Bool.false_eq_true, if_false]
            refine Or.inl ⟨rfl, hf, ?_⟩
            intro p hp
            rcases List.mem_or_eq_of_mem_set hp with hpold | rfl
            · exact hth p hpold
            · exact Or.inr rfl
        | waiting =>
            rw [hc, hcold]
            simp only [Bool.false_eq_true, if_false, hc, hfetch]
            refine Or.inr ⟨rfl, by rw [hf], ?_⟩

            intro p hp
            rcases List.mem_or_eq_of_mem_set hp with hpold | rfl
            · rcases hth p hpold with h1 | h1
              · exact Or.inl h1
              · exact Or.inr (Or.inl h1)
            · exact Or.inr (Or.inr rfl)
        | done res =>
            rcases hth _ hmem with h1 | h1 <;> simp at h1
  · rw [lockStep]
    cases hg : sys.threads.get? i with
    | none => exact Or.inr ⟨hc, hf, hth⟩
    | some ph =>
        cases ph with
        | start =>
            rw [hc, hwarm]
            simp only [if_true]
            refine Or.inr ⟨rfl, hf, ?_⟩
            intro p hp
            rcases List.mem_or_eq_of_mem_set hp with hpold | rfl
            · exact hth p hpold
            · exact Or.inr (Or.inr rfl)
        | waiting =>
            rw [hc, hwarm]
            simp only [if_true]
            refine Or.inr ⟨rfl, hf, ?_⟩
            intro p hp
            rcases List.mem_or_eq_of_mem_set hp with hpold | rfl
            · exact hth p hpold
            · exact Or.inr (Or.inr rfl)
        | done res => exact Or.inr ⟨hc, hf, hth⟩

/-- Helper: a whole schedule preserves the invariant. -/
theorem C4Inv_runSched (now e1 : Int) (jtok : String)
    (resp : Except String TokenHTTPResponse)
    (hat : jtok ≠ "") (hfresh : now < e1)
    (hfetch : fetchToken ⟨"", 0⟩ resp now = (⟨jtok, e1⟩, .ok jtok))
    (sys : Sys) (sched : List Nat) (h : C4Inv jtok e1 sys) :
    C4Inv jtok e1 (runSched resp now sys sched) := by
  induction sched generalizing sys with
  | nil => exact h
  | cons i rest ih =>
      rw [runSched]
      exact ih _ (C4Inv_lockStep now e1 jtok resp hat hfresh hfetch sys i h)

/-- C4: under `N ≥ 1` concurrent callers of the double-checked-locking
    token lookup starting with an empty cache, against a token endpoint
    that answers successfully with a non-empty token and an expiry in the
    future, every interleaving of the lock-serialised critical sections
    that lets every caller finish issues exactly one token-endpoint
    request, and every caller observes the one fetched token. -/
theorem C4_single_fetch (n : Nat) (hn : 0 < n) (now : Int)
    (r : TokenHTTPResponse) (j : TokenResponseJSON)
    (hst : r.statusCode = 200) (hb : r.body = .ok j)
    (hat : j.accessToken ≠ "")
    (hfresh : now < (if j.expiresIn > 0 then now + (j.expiresIn - 60)
      else now + 55 * 60))
    (sched : List Nat)
    (hdone : ∀ p ∈ (runSched (.ok r) now (initialSys n) sched).threads,
      ∃ res, p = Phase.done res) :
    (runSched (.ok r) now (initialSys n) sched).fetchCount = 1
    ∧ ∀ p ∈ (runSched (.ok r) now (initialSys n) sched).threads,
        p = Phase.done (.ok j.accessToken) := by
  have hfetch : fetchToken ⟨"", 0⟩ (.ok r) now =
      (⟨j.accessToken, if j.expiresIn > 0 then now + (j.expiresIn - 60)
        else now + 55 * 60⟩, .ok j.accessToken) :=
    C3_expiry_computation ⟨"", 0⟩ now r j hst hb hat
  have hinit : C4Inv j.accessToken
      (if j.expiresIn > 0 then now + (j.expiresIn - 60) else now + 55 * 60)
      (initialSys n) := by
    refine Or.inl ⟨rfl, rfl, ?_⟩
    intro p hp
    rw [List.eq_of_mem_replicate hp]
    exact Or.inl rfl
  have hinv := C4Inv_runSched now _ j.accessToken (.ok r) hat hfresh hfetch
    (initialSys n) sched hinit
  rcases hinv with ⟨hc, hf, hth⟩ | ⟨hc, hf, hth⟩
  · exfalso
    have hlen : (runSched (.ok r) now (initialSys n) sched).threads.length
        = n := by
      rw [runSched_threads_length]
      simp [initialSys]
    have hpos : 0 < (runSched (.ok r) now (initialSys n) sched).threads.length := by
      omega
    obtain ⟨p, hp⟩ := List.exists_mem_of_ne_nil _ (List.length_pos.mp hpos)
    obtain ⟨res, hres⟩ := hdone p hp
    rcases hth p hp with h1 | h1 <;> rw [hres] at h1 <;> simp at h1
  · refine ⟨hf, ?_⟩
    intro p hp
    obtain ⟨res, hres⟩ := hdone p hp
    rcases hth p hp with h1 | h1 | h1
    · rw [hres] at h1
      simp at h1
    · rw [hres] at h1
      simp at h1
    · exact h1

/-- Witness for C4: two callers, schedule `[0, 0, 1]` (caller 0 checks,
    queues, fetches; caller 1 then hits the warm cache). -/
theorem C4_single_fetch_witness :
    (runSched (.ok ⟨200, "200 OK", .ok ⟨"abc", "Bearer", 3600⟩⟩) 0
        (initialSys 2) [0, 0, 1]).fetchCount = 1
    ∧ ∀ p ∈ (runSched (.ok ⟨200, "200 OK", .ok ⟨"abc", "Bearer", 3600⟩⟩) 0
        (initialSys 2) [0, 0, 1]).threads,
        p = Phase.done (.ok "abc") := by
  refine C4_single_fetch 2 (by omega) 0
    ⟨200, "200 OK", .ok ⟨"abc", "Bearer", 3600⟩⟩ ⟨"abc", "Bearer", 3600⟩
    rfl rfl (by simp) (by decide) [0, 0, 1] ?_
  intro p hp
  have hthreads : (runSched (.ok ⟨200, "200 OK", .ok ⟨"abc", "Bearer", 3600⟩⟩) 0
      (initialSys 2) [0, 0, 1]).threads =
      [Phase.done (.ok "abc"), Phase.done (.ok "abc")] := rfl
  rw [hthreads] at hp
  simp only [List.mem_cons, List.not_mem_nil, or_false] at hp
  rcases hp with rfl | rfl <;> exact ⟨.ok "abc", rfl⟩

end HttpClient
